import Mathlib

/-
  Verification development for the Transformer implementation in `model.py`
  (classes `Encodings`, `Attention`, `_Model`).

  Tensors are modelled as shape-carrying structures whose entries are total
  functions on natural-number indices into the reals; floating-point
  arithmetic is idealised as real arithmetic.  TensorFlow broadcasting of a
  rank-3 tensor against a rank-2 tensor is modelled faithfully, including the
  failure case (shape mismatch), via `Option`.
-/

noncomputable section

namespace Transformer

/-- A rank-2 real tensor `(dim0, dim1)`; entries are a total function, only
indices below the dims are meaningful. -/
structure Tensor2 where
  dim0 : ℕ
  dim1 : ℕ
  entry : ℕ → ℕ → ℝ

/-- A rank-3 real tensor `(dim0, dim1, dim2)`. -/
structure Tensor3 where
  dim0 : ℕ
  dim1 : ℕ
  dim2 : ℕ
  entry : ℕ → ℕ → ℕ → ℝ

/-- A rank-4 real tensor `(dim0, dim1, dim2, dim3)`. -/
structure Tensor4 where
  dim0 : ℕ
  dim1 : ℕ
  dim2 : ℕ
  dim3 : ℕ
  entry : ℕ → ℕ → ℕ → ℕ → ℝ

/-- A rank-5 real tensor. -/
structure Tensor5 where
  dim0 : ℕ
  dim1 : ℕ
  dim2 : ℕ
  dim3 : ℕ
  dim4 : ℕ
  entry : ℕ → ℕ → ℕ → ℕ → ℕ → ℝ

/-- A batch of integer token-id sequences, shape `(dim0, dim1)`. -/
structure TokenBatch where
  dim0 : ℕ
  dim1 : ℕ
  entry : ℕ → ℕ → ℕ

/-- TensorFlow/numpy broadcasting of a rank-3 tensor plus a rank-2 tensor:
trailing axes are aligned, each aligned pair of dims must be equal or one of
them `1`; on mismatch the operation fails (shape error), modelled as `none`. -/
def broadcastAdd32 (a : Tensor3) (p : Tensor2) : Option Tensor3 :=
  if (a.dim1 = p.dim0 ∨ a.dim1 = 1 ∨ p.dim0 = 1) ∧
     (a.dim2 = p.dim1 ∨ a.dim2 = 1 ∨ p.dim1 = 1) then
    some ⟨a.dim0, max a.dim1 p.dim0, max a.dim2 p.dim1, fun i j k =>
      a.entry i (if a.dim1 = 1 then 0 else j) (if a.dim2 = 1 then 0 else k) +
      p.entry (if p.dim0 = 1 then 0 else j) (if p.dim1 = 1 then 0 else k)⟩
  else
    none

/-- A Keras `Dense(units)` layer: kernel of shape `(input_dim, units)` plus a
bias of shape `(units)`, applied to the last axis, no activation. -/
structure Dense where
  units : ℕ
  kernel : ℕ → ℕ → ℝ
  bias : ℕ → ℝ

/-- `Dense` applied to a rank-2 input `(b, n)`, giving `(b, units)`. -/
def Dense.apply2 (L : Dense) (x : Tensor2) : Tensor2 :=
  ⟨x.dim0, L.units, fun i u =>
    (∑ k in Finset.range x.dim1, x.entry i k * L.kernel k u) + L.bias u⟩

/-- `Dense` applied to a rank-3 input `(b, l, n)` along the last axis, giving
`(b, l, units)`. -/
def Dense.apply3 (L : Dense) (x : Tensor3) : Tensor3 :=
  ⟨x.dim0, x.dim1, L.units, fun i j u =>
    (∑ k in Finset.range x.dim2, x.entry i j k * L.kernel k u) + L.bias u⟩

/-- One entry of the sinusoidal positional matrix built by
`Encodings.get_sin_pos_emb_mat`: the fill loop writes, for `i < d / 2`,
column `2*i` with `sin (k / n^(2*i/d))` and column `2*i+1` with
`cos (k / n^(2*i/d))`; every other column keeps its `np.zeros` value. -/
def sinPosEntry (d k j : ℕ) : ℝ :=
  if j < 2 * (d / 2) then
    (if j % 2 = 0 then
      Real.sin ((k : ℝ) / (10000 : ℝ) ^ ((j : ℝ) / (d : ℝ)))
    else
      Real.cos ((k : ℝ) / (10000 : ℝ) ^ (((j - 1 : ℕ) : ℝ) / (d : ℝ))))
  else 0

/-- `Encodings.get_sin_pos_emb_mat(seq_len, d, n = 10000)`: the
`(seq_len + 1) × d` positional matrix `P` with `P[k, 2i] = sin(k / n^(2i/d))`
and `P[k, 2i+1] = cos(k / n^(2i/d))`. -/
def get_sin_pos_emb_mat (seq_len d : ℕ) : List (List ℝ) :=
  (List.range (seq_len + 1)).map fun k =>
    (List.range d).map fun j => sinPosEntry d k j

/-- The `Encodings` layer: configuration plus its parameter tables.
`embedding` is the token-embedding table (conceptually of shape
`(vocab_size + 2, emb_dim)`), `random_pos_embedding` the trainable positional
table (shape `(seq_length + 1, emb_dim)`), and `sin_pos_embedding_mat` the
fixed sinusoidal matrix computed at construction. -/
structure Encodings where
  embedding_dim : ℕ
  seq_length : ℕ
  vocab_size : ℕ
  pos_embedding_flag : Bool
  embedding_type : String
  embedding : ℕ → ℕ → ℝ
  random_pos_embedding : ℕ → ℕ → ℝ
  sin_pos_embedding_mat : List (List ℝ)

/-- `Encodings.__init__`: stores the configuration and parameter tables and
computes the sinusoidal positional matrix once. -/
def Encodings.init (emb_dim seq_length vocab_size : ℕ) (pos_embedding : Bool)
    (embedding_type : String) (embW randW : ℕ → ℕ → ℝ) : Encodings :=
  { embedding_dim := emb_dim
    seq_length := seq_length
    vocab_size := vocab_size
    pos_embedding_flag := pos_embedding
    embedding_type := embedding_type
    embedding := embW
    random_pos_embedding := randW
    sin_pos_embedding_mat := get_sin_pos_emb_mat seq_length emb_dim }

/-- The positional tensor added in `Encodings.call`: the rows `0 .. seq_length`
of the sinusoidal table when `pos_embedding_flag and embedding_type == 'SIN_COS'`,
otherwise the rows `0 .. seq_length` of the trainable random table.  Either
way its shape is `(seq_length + 1, embedding_dim)`. -/
def Encodings.posTensor (e : Encodings) : Tensor2 :=
  if e.pos_embedding_flag = true ∧ e.embedding_type = "SIN_COS" then
    ⟨e.seq_length + 1, e.embedding_dim, fun j k =>
      (e.sin_pos_embedding_mat.getD j []).getD k 0⟩
  else
    ⟨e.seq_length + 1, e.embedding_dim, fun j k => e.random_pos_embedding j k⟩

/-- `embedding_out = self.embedding(batch)`: token-embedding lookup,
shape `(batch, L, emb_dim)`. -/
def Encodings.embedding_out (e : Encodings) (batch : TokenBatch) : Tensor3 :=
  ⟨batch.dim0, batch.dim1, e.embedding_dim, fun i j k =>
    e.embedding (batch.entry i j) k⟩

/-- `embedding_out *= tf.math.sqrt(tf.cast(self.embedding_dim, tf.float32))`:
the looked-up embeddings scaled by `sqrt emb_dim`. -/
def Encodings.embedding_scaled (e : Encodings) (batch : TokenBatch) : Tensor3 :=
  ⟨(e.embedding_out batch).dim0, (e.embedding_out batch).dim1,
   (e.embedding_out batch).dim2, fun i j k =>
    (e.embedding_out batch).entry i j k * Real.sqrt (e.embedding_dim : ℝ)⟩

/-- `Encodings.call`: scale the looked-up embeddings and add the selected
positional tensor (both branches of the source `if` perform the addition;
they differ only in which table is read).  The addition broadcasts a
`(seq_length + 1, emb_dim)` tensor against `(batch, L, emb_dim)` and fails
for incompatible `L`. -/
def Encodings.call (e : Encodings) (batch : TokenBatch) : Option Tensor3 :=
  broadcastAdd32 (e.embedding_scaled batch) e.posTensor

/-- The weights of the four `Dense` sublayers created in `Attention.__init__`
(query, key, value, out): kernels and biases. -/
structure AttWeights where
  qk : ℕ → ℕ → ℝ
  kk : ℕ → ℕ → ℝ
  vk : ℕ → ℕ → ℝ
  ok : ℕ → ℕ → ℝ
  qb : ℕ → ℝ
  kb : ℕ → ℝ
  vb : ℕ → ℝ
  ob : ℕ → ℝ

/-- The `Attention` layer: configuration attributes as set by `__init__`
plus its four `Dense` sublayers. -/
structure Attention where
  num_att_heads : ℕ
  attention_head_size : ℕ
  all_head_size : ℕ
  emb_dim : ℕ
  query : Dense
  key : Dense
  value : Dense
  out : Dense

/-- `Attention.__init__(num_heads, emb_dim)`:
`attention_head_size = int(emb_dim / num_heads)` (integer division, remainder
silently dropped), `all_head_size = num_heads * attention_head_size`;
`query`, `key`, `value` are `Dense(all_head_size)` and `out` is
`Dense(emb_dim)`. -/
def Attention.init (num_heads emb_dim : ℕ) (w : AttWeights) : Attention :=
  { num_att_heads := num_heads
    attention_head_size := emb_dim / num_heads
    all_head_size := num_heads * (emb_dim / num_heads)
    emb_dim := emb_dim
    query := ⟨num_heads * (emb_dim / num_heads), w.qk, w.qb⟩
    key := ⟨num_heads * (emb_dim / num_heads), w.kk, w.kb⟩
    value := ⟨num_heads * (emb_dim / num_heads), w.vk, w.vb⟩
    out := ⟨emb_dim, w.ok, w.ob⟩ }

/-- `Attention.split_heads`: reshape `(b, L, A)` to `(b, -1, H, hs)` and
transpose with `perm = [0, 2, 1, 3]`.  Row-major reshape semantics: target
coordinates `(j, h, s)` correspond to flat offset `j*(H*hs) + h*hs + s`
inside each batch row, read back from the source at
`(flat / A, flat % A)`. -/
def Attention.split_heads (A : Attention) (input_layer : Tensor3) : Tensor4 :=
  ⟨input_layer.dim0,
   A.num_att_heads,
   input_layer.dim1 * input_layer.dim2 / (A.num_att_heads * A.attention_head_size),
   A.attention_head_size,
   fun i h j s =>
     input_layer.entry i
       ((j * (A.num_att_heads * A.attention_head_size) + h * A.attention_head_size + s) /
          input_layer.dim2)
       ((j * (A.num_att_heads * A.attention_head_size) + h * A.attention_head_size + s) %
          input_layer.dim2)⟩

/-- `tf.matmul(q, k, transpose_b=True)` on rank-4 tensors (batched over the
first two axes). -/
def matmulT4 (q k : Tensor4) : Tensor4 :=
  ⟨q.dim0, q.dim1, q.dim2, k.dim2, fun i h a b =>
    ∑ s in Finset.range q.dim3, q.entry i h a s * k.entry i h b s⟩

/-- `tf.matmul(p, v)` on rank-4 tensors (batched over the first two axes). -/
def matmul4 (p v : Tensor4) : Tensor4 :=
  ⟨p.dim0, p.dim1, p.dim2, v.dim3, fun i h a s =>
    ∑ k in Finset.range p.dim3, p.entry i h a k * v.entry i h k s⟩

/-- Elementwise division of a rank-4 tensor by a scalar. -/
def Tensor4.divScalar (t : Tensor4) (c : ℝ) : Tensor4 :=
  ⟨t.dim0, t.dim1, t.dim2, t.dim3, fun i h a b => t.entry i h a b / c⟩

/-- `tf.nn.softmax(t, axis=-1)` over the last axis (of extent `t.dim3`).
Over the reals, the numerically stabilised form TensorFlow computes equals
the direct `exp x / Σ exp`. -/
def softmax4 (t : Tensor4) : Tensor4 :=
  ⟨t.dim0, t.dim1, t.dim2, t.dim3, fun i h q k =>
    Real.exp (t.entry i h q k) /
      ∑ j in Finset.range t.dim3, Real.exp (t.entry i h q j)⟩

/-- `tf.transpose(t, perm=[0, 2, 1, 3])`. -/
def transpose0213 (t : Tensor4) : Tensor4 :=
  ⟨t.dim0, t.dim2, t.dim1, t.dim3, fun i j h s => t.entry i h j s⟩

/-- `tf.reshape(t, (b, -1, d))` on a rank-4 tensor, row-major: target
coordinates `(j, k)` correspond to flat offset `n = j*d + k` inside each
batch row, read back from the source axes `(dim1, dim2, dim3)`. -/
def reshape3 (t : Tensor4) (d : ℕ) : Tensor3 :=
  ⟨t.dim0, t.dim1 * t.dim2 * t.dim3 / d, d, fun i j k =>
    t.entry i
      ((j * d + k) / (t.dim2 * t.dim3))
      ((j * d + k) % (t.dim2 * t.dim3) / t.dim3)
      ((j * d + k) % (t.dim2 * t.dim3) % t.dim3)⟩

/-- `query_layer = self.split_heads(self.query(hidden_states), ...)`. -/
def Attention.query_layer (A : Attention) (hidden_states : Tensor3) : Tensor4 :=
  A.split_heads (A.query.apply3 hidden_states)

/-- `key_layer = self.split_heads(self.key(hidden_states), ...)`. -/
def Attention.key_layer (A : Attention) (hidden_states : Tensor3) : Tensor4 :=
  A.split_heads (A.key.apply3 hidden_states)

/-- `value_layer = self.split_heads(self.value(hidden_states), ...)`. -/
def Attention.value_layer (A : Attention) (hidden_states : Tensor3) : Tensor4 :=
  A.split_heads (A.value.apply3 hidden_states)

/-- `attention_scores = tf.matmul(query_layer, key_layer, transpose_b=True)`
followed by `attention_scores / math.sqrt(self.attention_head_size)`. -/
def Attention.attention_scores (A : Attention) (hidden_states : Tensor3) : Tensor4 :=
  (matmulT4 (A.query_layer hidden_states) (A.key_layer hidden_states)).divScalar
    (Real.sqrt (A.attention_head_size : ℝ))

/-- `attention_probs = tf.nn.softmax(attention_scores, axis=-1)`. -/
def Attention.attention_probs (A : Attention) (hidden_states : Tensor3) : Tensor4 :=
  softmax4 (A.attention_scores hidden_states)

/-- `context_layer`: the probability-weighted sum of values, transposed with
`perm = [0, 2, 1, 3]` and reshaped to `(b, -1, emb_dim)`. -/
def Attention.context_layer (A : Attention) (hidden_states : Tensor3) : Tensor3 :=
  reshape3
    (transpose0213 (matmul4 (A.attention_probs hidden_states)
      (A.value_layer hidden_states)))
    A.emb_dim

/-- `Attention.call`: returns `(att_output, attention_probs)` where
`att_output = self.out(context_layer)`. -/
def Attention.call (A : Attention) (hidden_states : Tensor3) : Tensor3 × Tensor4 :=
  (A.out.apply3 (A.context_layer hidden_states), A.attention_probs hidden_states)

/-- The `_Model` wrapper layer: an `Encodings` sublayer, the attention stack
created in `build`, and the final `Dense(head_size)` head. -/
structure Model where
  encodings : Encodings
  num_heads : ℕ
  emb_dim : ℕ
  agg_method : String
  head_dim : ℕ
  num_att_layers : ℕ
  head : Dense
  att_layers : List Attention

/-- `_Model.__init__` together with `_Model.build`: stores the configuration,
constructs the `Encodings` sublayer and the `Dense(head_size)` head, and
creates `num_att_layers` independent `Attention(num_heads, emb_dim)` layers
(each with its own weights, supplied here as the family `layerW`). -/
def Model.init (emb_dim seq_length vocab_size : ℕ) (pos_embedding : Bool)
    (num_heads head_size : ℕ) (agg_method embedding_type : String)
    (num_att_layers : ℕ) (embW randW : ℕ → ℕ → ℝ)
    (layerW : ℕ → AttWeights) (headK : ℕ → ℕ → ℝ) (headB : ℕ → ℝ) : Model :=
  { encodings := Encodings.init emb_dim seq_length vocab_size pos_embedding
      embedding_type embW randW
    num_heads := num_heads
    emb_dim := emb_dim
    agg_method := agg_method
    head_dim := head_size
    num_att_layers := num_att_layers
    head := ⟨head_size, headK, headB⟩
    att_layers := (List.range num_att_layers).map fun i =>
      Attention.init num_heads emb_dim (layerW i) }

/-- The loop in `_Model.call`: feed each attention layer's output into the
next and collect every layer's attention-probability tensor in order. -/
def Model.runLayers : List Attention → Tensor3 → Tensor3 × List Tensor4
  | [], op => (op, [])
  | A :: rest, op =>
    let step := A.call op
    let tail := Model.runLayers rest step.1
    (tail.1, step.2 :: tail.2)

/-- `tf.convert_to_tensor(att_scores_list)`: stacks a list of rank-4 tensors
along a new leading axis (the list is homogeneous in the model's use; the
trailing dims are those of the first element). -/
def stack5 (l : List Tensor4) : Tensor5 :=
  ⟨l.length,
   (l.headD ⟨0, 0, 0, 0, fun _ _ _ _ => 0⟩).dim0,
   (l.headD ⟨0, 0, 0, 0, fun _ _ _ _ => 0⟩).dim1,
   (l.headD ⟨0, 0, 0, 0, fun _ _ _ _ => 0⟩).dim2,
   (l.headD ⟨0, 0, 0, 0, fun _ _ _ _ => 0⟩).dim3,
   fun n i h q k => (l.getD n ⟨0, 0, 0, 0, fun _ _ _ _ => 0⟩).entry i h q k⟩

/-- The part of `_Model.call` after the `Encodings` sublayer: run the
attention stack, aggregate by `tf.gather(att_op, 0, axis=1)` when
`agg_method == 'TOKEN'` and by `tf.reduce_sum(att_op, axis=1)` otherwise,
apply the final head, and stack the collected attention tensors. -/
def Model.forwardFrom (M : Model) (op : Tensor3) : Tensor2 × Tensor5 :=
  (M.head.apply2
    (if M.agg_method = "TOKEN" then
      ⟨(Model.runLayers M.att_layers op).1.dim0,
       (Model.runLayers M.att_layers op).1.dim2,
       fun i k => (Model.runLayers M.att_layers op).1.entry i 0 k⟩
    else
      ⟨(Model.runLayers M.att_layers op).1.dim0,
       (Model.runLayers M.att_layers op).1.dim2,
       fun i k => ∑ j in Finset.range (Model.runLayers M.att_layers op).1.dim1,
         (Model.runLayers M.att_layers op).1.entry i j k⟩),
   stack5 (Model.runLayers M.att_layers op).2)

/-- `_Model.call`: run `Encodings` (which can fail with a broadcast shape
error), then the attention stack, aggregation, head projection and attention
stacking. -/
def Model.call (M : Model) (input : TokenBatch) : Option (Tensor2 × Tensor5) :=
  (M.encodings.call input).map fun op => M.forwardFrom op

/-- Specification-side definition (spec 4.3, step "first-position pooling"):
take only the vector at sequence position 0. -/
def firstPositionPool (t : Tensor3) : Tensor2 :=
  ⟨t.dim0, t.dim2, fun i k => t.entry i 0 k⟩

/-- Specification-side definition (spec 4.3, step "summation pooling"):
the elementwise sum of all position vectors. -/
def sumPool (t : Tensor3) : Tensor2 :=
  ⟨t.dim0, t.dim2, fun i k => ∑ j in Finset.range t.dim1, t.entry i j k⟩

/-- Specification-side definition (claim about `Attention`): the per-head
query tensor obtained by slicing the dense projection's width
`num_heads × head_size` into contiguous per-head blocks of size `head_size`:
head `h`, coordinate `s` reads column `h * hs + s`. -/
def headSlice (m : Tensor3) (hds hs : ℕ) : Tensor4 :=
  ⟨m.dim0, hds, m.dim1, hs, fun i h j s => m.entry i j (h * hs + s)⟩

/-- Specification-side definition: raw scores `query · keyᵀ` per head,
divided by `sqrt head_size`. -/
def specScores (q k : Tensor4) (hs : ℕ) : Tensor4 :=
  ⟨q.dim0, q.dim1, q.dim2, k.dim2, fun i h a b =>
    (∑ s in Finset.range hs, q.entry i h a s * k.entry i h b s) /
      Real.sqrt (hs : ℝ)⟩

/-- Specification-side definition: probability-weighted sum of the value
vectors, weights along the key axis. -/
def specContext (p v : Tensor4) (numKeys : ℕ) : Tensor4 :=
  ⟨p.dim0, p.dim1, p.dim2, v.dim3, fun i h a s =>
    ∑ k in Finset.range numKeys, p.entry i h a k * v.entry i h k s⟩

/-- Specification-side definition: heads recombined back to width
`num_heads × head_size`: position `(j, c)` reads head `c / hs`,
coordinate `c % hs`. -/
def specRecombine (c4 : Tensor4) (hds hs : ℕ) : Tensor3 :=
  ⟨c4.dim0, c4.dim2, hds * hs, fun i j c => c4.entry i (c / hs) j (c % hs)⟩

/-- Specification-side definition of the whole `MultiHeadAttention` forward
pass as the claim states it: per-head slices of the dense query/key/value
projections, raw scores `q · kᵀ / sqrt hs`, softmax over the key axis,
probability-weighted value sum, recombination to width `heads × head_size`,
and the final output projection with no non-linear activation. -/
def specAttentionOutput (A : Attention) (x : Tensor3) : Tensor3 :=
  let q := headSlice (A.query.apply3 x) A.num_att_heads A.attention_head_size
  let k := headSlice (A.key.apply3 x) A.num_att_heads A.attention_head_size
  let v := headSlice (A.value.apply3 x) A.num_att_heads A.attention_head_size
  let probs := softmax4 (specScores q k A.attention_head_size)
  A.out.apply3
    (specRecombine (specContext probs v x.dim1) A.num_att_heads A.attention_head_size)

/-- Specification-side attention probabilities: softmax of the scaled
per-head raw scores. -/
def specAttentionProbs (A : Attention) (x : Tensor3) : Tensor4 :=
  softmax4
    (specScores (headSlice (A.query.apply3 x) A.num_att_heads A.attention_head_size)
      (headSlice (A.key.apply3 x) A.num_att_heads A.attention_head_size)
      A.attention_head_size)

/-! ### Concrete instances used to exercise the theorems -/

/-- All-zero weights for one `Attention` layer. -/
def zeroAttW : AttWeights :=
  ⟨fun _ _ => 0, fun _ _ => 0, fun _ _ => 0, fun _ _ => 0,
   fun _ => 0, fun _ => 0, fun _ => 0, fun _ => 0⟩

/-- A minimal configured model: `emb_dim = 1`, `seq_length = 0`, one head,
one attention layer, TOKEN aggregation, sinusoidal positional embeddings. -/
def tinyModel : Model :=
  Model.init 1 0 0 true 1 1 ("TOKEN") ("SIN_COS") 1
    (fun _ _ => 0) (fun _ _ => 0) (fun _ => zeroAttW) (fun _ _ => 0) (fun _ => 0)

/-- A batch of one length-1 sequence of token id 0 (the length the `tinyModel`
broadcast accepts: `seq_length + 1`). -/
def tinyBatch : TokenBatch := ⟨1, 1, fun _ _ => 0⟩

/-- `tinyModel` with an unrecognized aggregation method. -/
def fooModel : Model := { tinyModel with agg_method := "FOO" }

/-- An `Encodings` layer with `seq_length = 2`, fed below with a batch of
sequences of exactly that length. -/
def c1Enc : Encodings :=
  Encodings.init 2 2 0 true ("SIN_COS") (fun _ _ => 0) (fun _ _ => 0)

/-- A batch of one token-id sequence of length `2 = c1Enc.seq_length`. -/
def c1Batch : TokenBatch := ⟨1, 2, fun _ _ => 0⟩

/-- An `Encodings` layer with `seq_length = 1`; batches of length 2 succeed. -/
def c1wEnc : Encodings :=
  Encodings.init 2 1 0 true ("SIN_COS") (fun _ _ => 0) (fun _ _ => 0)

/-- A batch of one token-id sequence of length `2 = c1wEnc.seq_length + 1`. -/
def c1wBatch : TokenBatch := ⟨1, 2, fun _ _ => 0⟩

/-- An `Encodings` layer with `pos_embedding = False`, an all-zero token
table and an all-one trainable positional table. -/
def c2Enc : Encodings :=
  Encodings.init 2 1 0 false ("SIN_COS") (fun _ _ => 0) (fun _ _ => 1)

/-- A batch of one token-id sequence of length `2 = c2Enc.seq_length + 1`. -/
def c2Batch : TokenBatch := ⟨1, 2, fun _ _ => 0⟩

/-- A one-head attention layer on width-1 embeddings with zero weights. -/
def c3Attn : Attention := Attention.init 1 1 zeroAttW

/-- A `(1, 1, 1)` hidden-state tensor. -/
def c3X : Tensor3 := ⟨1, 1, 1, fun _ _ _ => 0⟩

/-! ### Helper lemmas -/

theorem Encodings.posTensor_dim0 (e : Encodings) :
    e.posTensor.dim0 = e.seq_length + 1 := by
  unfold Encodings.posTensor; split <;> rfl

theorem Encodings.posTensor_dim1 (e : Encodings) :
    e.posTensor.dim1 = e.embedding_dim := by
  unfold Encodings.posTensor; split <;> rfl

/-- Broadcast index selector is the identity on in-range indices. -/
theorem sel_eq (n j : ℕ) (hj : j < n) : (if n = 1 then 0 else j) = j := by
  split
  · omega
  · rfl

theorem flat_div (M j r : ℕ) (hM : 0 < M) (hr : r < M) : (j * M + r) / M = j := by
  rw [mul_comm, Nat.mul_add_div hM, Nat.div_eq_of_lt hr, add_zero]

theorem flat_mod (M j r : ℕ) (hr : r < M) : (j * M + r) % M = r := by
  rw [mul_comm, Nat.mul_add_mod, Nat.mod_eq_of_lt hr]

/-- When the batch's sequence length is `seq_length + 1`, the broadcast
compatibility condition of `Encodings.call` holds. -/
theorem encodings_success_cond (e : Encodings) (batch : TokenBatch)
    (hdim : batch.dim1 = e.seq_length + 1) :
    ((e.embedding_scaled batch).dim1 = e.posTensor.dim0 ∨
      (e.embedding_scaled batch).dim1 = 1 ∨ e.posTensor.dim0 = 1) ∧
    ((e.embedding_scaled batch).dim2 = e.posTensor.dim1 ∨
      (e.embedding_scaled batch).dim2 = 1 ∨ e.posTensor.dim1 = 1) := by
  constructor
  · left; rw [Encodings.posTensor_dim0]; exact hdim
  · left; rw [Encodings.posTensor_dim1]; rfl

theorem encodings_call_dims (e : Encodings) (batch : TokenBatch)
    (hdim : batch.dim1 = e.seq_length + 1) :
    ((Encodings.call e batch).map fun t => (t.dim0, t.dim1, t.dim2)) =
      some (batch.dim0, batch.dim1, e.embedding_dim) := by
  unfold Encodings.call broadcastAdd32
  rw [if_pos (encodings_success_cond e batch hdim)]
  simp only [Option.map_some']
  have h1 : max (e.embedding_scaled batch).dim1 e.posTensor.dim0 = batch.dim1 := by
    rw [Encodings.posTensor_dim0]
    show max batch.dim1 (e.seq_length + 1) = batch.dim1
    rw [hdim, Nat.max_self]
  have h2 : max (e.embedding_scaled batch).dim2 e.posTensor.dim1 = e.embedding_dim := by
    rw [Encodings.posTensor_dim1]
    show max e.embedding_dim e.embedding_dim = e.embedding_dim
    rw [Nat.max_self]
  rw [h1, h2]
  rfl

theorem encodings_call_entry (e : Encodings) (batch : TokenBatch)
    (hdim : batch.dim1 = e.seq_length + 1) (i j k : ℕ)
    (hj : j < batch.dim1) (hk : k < e.embedding_dim) :
    ((Encodings.call e batch).map fun t => t.entry i j k) =
      some ((e.embedding_scaled batch).entry i j k + e.posTensor.entry j k) := by
  unfold Encodings.call broadcastAdd32
  rw [if_pos (encodings_success_cond e batch hdim)]
  simp only [Option.map_some']
  have h1 : (if (e.embedding_scaled batch).dim1 = 1 then 0 else j) = j := sel_eq _ j hj
  have h2 : (if (e.embedding_scaled batch).dim2 = 1 then 0 else k) = k := sel_eq _ k hk
  have h3 : (if e.posTensor.dim0 = 1 then 0 else j) = j :=
    sel_eq _ j (by rw [Encodings.posTensor_dim0, ← hdim]; exact hj)
  have h4 : (if e.posTensor.dim1 = 1 then 0 else k) = k :=
    sel_eq _ k (by rw [Encodings.posTensor_dim1]; exact hk)
  rw [h1, h2, h3, h4]

/-- In-range entries of `split_heads` on an input whose last dim is
`num_heads * head_size`: the reshape-then-transpose picks column
`h * head_size + s` of sequence position `j`. -/
theorem split_heads_entry (A : Attention) (m : Tensor3)
    (hm : m.dim2 = A.num_att_heads * A.attention_head_size)
    (i h j s : ℕ) (hh : h < A.num_att_heads) (hsz : s < A.attention_head_size) :
    (A.split_heads m).entry i h j s = m.entry i j (h * A.attention_head_size + s) := by
  unfold Attention.split_heads
  dsimp only
  have hr : h * A.attention_head_size + s < A.num_att_heads * A.attention_head_size := by
    calc h * A.attention_head_size + s < (h + 1) * A.attention_head_size := by
          rw [add_mul, one_mul]; omega
    _ ≤ A.num_att_heads * A.attention_head_size := Nat.mul_le_mul_right _ hh
  have hM : 0 < A.num_att_heads * A.attention_head_size := by omega
  have hflat : j * (A.num_att_heads * A.attention_head_size) +
      h * A.attention_head_size + s =
      j * (A.num_att_heads * A.attention_head_size) +
      (h * A.attention_head_size + s) := by ring
  rw [hm, hflat, flat_div _ _ _ hM hr, flat_mod _ _ _ hr]

theorem split_heads_dim2 (A : Attention) (m : Tensor3)
    (hm : m.dim2 = A.num_att_heads * A.attention_head_size)
    (hpos : 0 < A.num_att_heads * A.attention_head_size) :
    (A.split_heads m).dim2 = m.dim1 := by
  show m.dim1 * m.dim2 / (A.num_att_heads * A.attention_head_size) = m.dim1
  rw [hm, Nat.mul_div_cancel _ hpos]

/-- With `num_heads` dividing `emb_dim`, the scaled raw scores computed via
reshape/transpose agree with the per-head-slice formulation, for every head
index in range. -/
theorem attention_scores_entry_spec (H D : ℕ) (w : AttWeights) (x : Tensor3)
    (i a b h : ℕ) (hh : h < H) :
    ((Attention.init H D w).attention_scores x).entry i h a b =
      (specScores
        (headSlice ((Attention.init H D w).query.apply3 x)
          (Attention.init H D w).num_att_heads
          (Attention.init H D w).attention_head_size)
        (headSlice ((Attention.init H D w).key.apply3 x)
          (Attention.init H D w).num_att_heads
          (Attention.init H D w).attention_head_size)
        (Attention.init H D w).attention_head_size).entry i h a b := by
  have hq3 : ((Attention.init H D w).query_layer x).dim3 =
      (Attention.init H D w).attention_head_size := rfl
  show (∑ s in Finset.range ((Attention.init H D w).query_layer x).dim3,
      ((Attention.init H D w).query_layer x).entry i h a s *
        ((Attention.init H D w).key_layer x).entry i h b s) /
      Real.sqrt (((Attention.init H D w).attention_head_size : ℕ) : ℝ) =
    (∑ s in Finset.range (Attention.init H D w).attention_head_size,
      ((Attention.init H D w).query.apply3 x).entry i a
        (h * (Attention.init H D w).attention_head_size + s) *
        ((Attention.init H D w).key.apply3 x).entry i b
          (h * (Attention.init H D w).attention_head_size + s)) /
      Real.sqrt (((Attention.init H D w).attention_head_size : ℕ) : ℝ)
  congr 1
  rw [hq3]
  unfold Attention.query_layer Attention.key_layer
  refine Finset.sum_congr rfl fun s hsmem => ?_
  have hsz : s < (Attention.init H D w).attention_head_size := Finset.mem_range.mp hsmem
  rw [split_heads_entry _ _ rfl i h a s hh hsz,
    split_heads_entry _ _ rfl i h b s hh hsz]

/-- With `num_heads` dividing `emb_dim`, the attention probabilities agree
with the per-head-slice formulation, for every head index in range. -/
theorem attention_probs_entry_spec (H D : ℕ) (w : AttWeights) (x : Tensor3)
    (hH : 0 < H) (hdvd : H ∣ D) (hD : 0 < D)
    (i q k h : ℕ) (hh : h < H) :
    ((Attention.init H D w).attention_probs x).entry i h q k =
      (specAttentionProbs (Attention.init H D w) x).entry i h q k := by
  have hnum : ∀ b, ((Attention.init H D w).attention_scores x).entry i h q b =
      (specScores
        (headSlice ((Attention.init H D w).query.apply3 x)
          (Attention.init H D w).num_att_heads
          (Attention.init H D w).attention_head_size)
        (headSlice ((Attention.init H D w).key.apply3 x)
          (Attention.init H D w).num_att_heads
          (Attention.init H D w).attention_head_size)
        (Attention.init H D w).attention_head_size).entry i h q b :=
    fun b => attention_scores_entry_spec H D w x i q b h hh
  have hallpos : 0 < H * (D / H) := by
    rw [Nat.mul_div_cancel' hdvd]; exact hD
  have ht3 : ((Attention.init H D w).attention_scores x).dim3 = x.dim1 :=
    split_heads_dim2 _ _ rfl hallpos
  have ht3s : (specScores
      (headSlice ((Attention.init H D w).query.apply3 x)
        (Attention.init H D w).num_att_heads
        (Attention.init H D w).attention_head_size)
      (headSlice ((Attention.init H D w).key.apply3 x)
        (Attention.init H D w).num_att_heads
        (Attention.init H D w).attention_head_size)
      (Attention.init H D w).attention_head_size).dim3 = x.dim1 := rfl
  show Real.exp (((Attention.init H D w).attention_scores x).entry i h q k) /
      (∑ j in Finset.range ((Attention.init H D w).attention_scores x).dim3,
        Real.exp (((Attention.init H D w).attention_scores x).entry i h q j)) =
    Real.exp ((specScores
        (headSlice ((Attention.init H D w).query.apply3 x)
          (Attention.init H D w).num_att_heads
          (Attention.init H D w).attention_head_size)
        (headSlice ((Attention.init H D w).key.apply3 x)
          (Attention.init H D w).num_att_heads
          (Attention.init H D w).attention_head_size)
        (Attention.init H D w).attention_head_size).entry i h q k) /
      (∑ j in Finset.range (specScores
          (headSlice ((Attention.init H D w).query.apply3 x)
            (Attention.init H D w).num_att_heads
            (Attention.init H D w).attention_head_size)
          (headSlice ((Attention.init H D w).key.apply3 x)
            (Attention.init H D w).num_att_heads
            (Attention.init H D w).attention_head_size)
          (Attention.init H D w).attention_head_size).dim3,
        Real.exp ((specScores
          (headSlice ((Attention.init H D w).query.apply3 x)
            (Attention.init H D w).num_att_heads
            (Attention.init H D w).attention_head_size)
          (headSlice ((Attention.init H D w).key.apply3 x)
            (Attention.init H D w).num_att_heads
            (Attention.init H D w).attention_head_size)
          (Attention.init H D w).attention_head_size).entry i h q j))
  rw [hnum k]
  congr 1
  rw [ht3, ht3s]
  exact Finset.sum_congr rfl fun b _ => by rw [hnum b]

/-- With `num_heads` dividing `emb_dim`, the reshape-to-`emb_dim` of the
transposed context agrees with the spec-side recombination to width
`num_heads * head_size`, entrywise in range. -/
theorem context_layer_entry_spec (H D : ℕ) (w : AttWeights) (x : Tensor3)
    (hH : 0 < H) (hdvd : H ∣ D) (hD : 0 < D) (i j c : ℕ) (hc : c < D) :
    ((Attention.init H D w).context_layer x).entry i j c =
      (specRecombine
        (specContext (specAttentionProbs (Attention.init H D w) x)
          (headSlice ((Attention.init H D w).value.apply3 x)
            (Attention.init H D w).num_att_heads
            (Attention.init H D w).attention_head_size) x.dim1)
        (Attention.init H D w).num_att_heads
        (Attention.init H D w).attention_head_size).entry i j c := by
  have hall : H * (D / H) = D := Nat.mul_div_cancel' hdvd
  have hallpos : 0 < H * (D / H) := by rw [hall]; exact hD
  have hhs : 0 < D / H := Nat.div_pos (Nat.le_of_dvd hD hdvd) hH
  have hch : c / (D / H) < H := by
    rw [Nat.div_lt_iff_lt_mul hhs, hall]
    exact hc
  have hcs : c % (D / H) < D / H := Nat.mod_lt _ hhs
  unfold Attention.context_layer reshape3
  dsimp only
  have ed : (transpose0213 (matmul4 ((Attention.init H D w).attention_probs x)
        ((Attention.init H D w).value_layer x))).dim2 *
      (transpose0213 (matmul4 ((Attention.init H D w).attention_probs x)
        ((Attention.init H D w).value_layer x))).dim3 = D := hall
  have hemb : (Attention.init H D w).emb_dim = D := rfl
  rw [hemb, ed, flat_div D j c hD hc, flat_mod D j c hc]
  have hP3 : ((Attention.init H D w).attention_probs x).dim3 = x.dim1 :=
    split_heads_dim2 _ _ rfl hallpos
  show ∑ kk in Finset.range ((Attention.init H D w).attention_probs x).dim3,
      ((Attention.init H D w).attention_probs x).entry i
        (c / (Attention.init H D w).attention_head_size) j kk *
      ((Attention.init H D w).value_layer x).entry i
        (c / (Attention.init H D w).attention_head_size) kk
        (c % (Attention.init H D w).attention_head_size) =
    ∑ kk in Finset.range x.dim1,
      (specAttentionProbs (Attention.init H D w) x).entry i
        (c / (Attention.init H D w).attention_head_size) j kk *
      (headSlice ((Attention.init H D w).value.apply3 x)
        (Attention.init H D w).num_att_heads
        (Attention.init H D w).attention_head_size).entry i
        (c / (Attention.init H D w).attention_head_size) kk
        (c % (Attention.init H D w).attention_head_size)
  rw [hP3]
  refine Finset.sum_congr rfl fun kk _ => ?_
  unfold Attention.value_layer
  rw [attention_probs_entry_spec H D w x hH hdvd hD i j kk
      (c / (Attention.init H D w).attention_head_size) hch,
    split_heads_entry (Attention.init H D w)
      ((Attention.init H D w).value.apply3 x) rfl i
      (c / (Attention.init H D w).attention_head_size)
      kk (c % (Attention.init H D w).attention_head_size) hch hcs]
  rfl

/-- Output and probability shapes of one attention layer built by
`Attention.init`, for `num_heads` dividing `emb_dim`. -/
theorem attention_call_dims (H D : ℕ) (w : AttWeights) (x : Tensor3)
    (hdvd : H ∣ D) (hD : 0 < D) :
    ((Attention.call (Attention.init H D w) x).1.dim0 = x.dim0 ∧
     (Attention.call (Attention.init H D w) x).1.dim1 = x.dim1 ∧
     (Attention.call (Attention.init H D w) x).1.dim2 = D) ∧
    ((Attention.call (Attention.init H D w) x).2.dim0 = x.dim0 ∧
     (Attention.call (Attention.init H D w) x).2.dim1 = H ∧
     (Attention.call (Attention.init H D w) x).2.dim2 = x.dim1 ∧
     (Attention.call (Attention.init H D w) x).2.dim3 = x.dim1) := by
  have hall : H * (D / H) = D := Nat.mul_div_cancel' hdvd
  have hallpos : 0 < H * (D / H) := by rw [hall]; exact hD
  have hq2 : ((Attention.init H D w).query_layer x).dim2 = x.dim1 :=
    split_heads_dim2 _ _ rfl hallpos
  have hk2 : ((Attention.init H D w).key_layer x).dim2 = x.dim1 :=
    split_heads_dim2 _ _ rfl hallpos
  refine ⟨⟨rfl, ?_, rfl⟩, rfl, rfl, hq2, hk2⟩
  show ((Attention.init H D w).query_layer x).dim2 *
      (Attention.init H D w).num_att_heads *
      (Attention.init H D w).attention_head_size /
      (Attention.init H D w).emb_dim = x.dim1
  rw [hq2]
  show x.dim1 * H * (D / H) / D = x.dim1
  rw [mul_assoc, hall, Nat.mul_div_cancel _ hD]

/-- The attention stack preserves the `(batch, L, D)` shape and collects one
`(batch, H, L, L)` probability tensor per layer, when every layer is an
`Attention.init H D _` and `H ∣ D`. -/
theorem runLayers_facts (H D : ℕ) (hdvd : H ∣ D) (hD : 0 < D) :
    ∀ (layers : List Attention),
      (∀ B ∈ layers, ∃ w, B = Attention.init H D w) →
    ∀ (op : Tensor3), op.dim2 = D →
      ((Model.runLayers layers op).1.dim0 = op.dim0 ∧
       (Model.runLayers layers op).1.dim1 = op.dim1 ∧
       (Model.runLayers layers op).1.dim2 = D) ∧
      (Model.runLayers layers op).2.length = layers.length ∧
      (∀ t ∈ (Model.runLayers layers op).2,
        t.dim0 = op.dim0 ∧ t.dim1 = H ∧ t.dim2 = op.dim1 ∧ t.dim3 = op.dim1) := by
  intro layers
  induction layers with
  | nil =>
    intro _ op hop
    exact ⟨⟨rfl, rfl, hop⟩, rfl, fun t ht => absurd ht (List.not_mem_nil t)⟩
  | cons B rest ih =>
    intro hmem op hop
    obtain ⟨w, rfl⟩ := hmem B (List.mem_cons_self B rest)
    have hstep := attention_call_dims H D w op hdvd hD
    have ihres := ih (fun C hC => hmem C (List.mem_cons_of_mem _ hC))
      ((Attention.call (Attention.init H D w) op).1) hstep.1.2.2
    refine ⟨⟨ihres.1.1.trans hstep.1.1, ihres.1.2.1.trans hstep.1.2.1,
      ihres.1.2.2⟩, ?_, ?_⟩
    · show ((Attention.call (Attention.init H D w) op).2 ::
        (Model.runLayers rest (Attention.call (Attention.init H D w) op).1).2).length =
        rest.length + 1
      rw [List.length_cons, ihres.2.1]
    · intro t ht
      have ht2 : t ∈ (Attention.call (Attention.init H D w) op).2 ::
          (Model.runLayers rest (Attention.call (Attention.init H D w) op).1).2 := ht
      rcases List.mem_cons.mp ht2 with rfl | htail
      · exact ⟨hstep.2.1, hstep.2.2.1, hstep.2.2.2.1, hstep.2.2.2.2⟩
      · obtain ⟨h0, h1, h2, h3⟩ := ihres.2.2 t htail
        exact ⟨h0.trans hstep.1.1, h1, h2.trans hstep.1.2.1, h3.trans hstep.1.2.1⟩

/-- Successful `Encodings.call` in existential form, with the output dims. -/
theorem encodings_call_eq (e : Encodings) (batch : TokenBatch)
    (hdim : batch.dim1 = e.seq_length + 1) :
    ∃ op, Encodings.call e batch = some op ∧ op.dim0 = batch.dim0 ∧
      op.dim1 = batch.dim1 ∧ op.dim2 = e.embedding_dim := by
  unfold Encodings.call broadcastAdd32
  rw [if_pos (encodings_success_cond e batch hdim)]
  refine ⟨_, rfl, rfl, ?_, ?_⟩
  · show max (e.embedding_scaled batch).dim1 e.posTensor.dim0 = batch.dim1
    rw [Encodings.posTensor_dim0]
    show max batch.dim1 (e.seq_length + 1) = batch.dim1
    rw [hdim, Nat.max_self]
  · show max (e.embedding_scaled batch).dim2 e.posTensor.dim1 = e.embedding_dim
    rw [Encodings.posTensor_dim1]
    show max e.embedding_dim e.embedding_dim = e.embedding_dim
    rw [Nat.max_self]

/-! ### Claim theorems -/

/-- Claim C1, amended.  As stated the claim fails: with a batch of sequences
of the configured length `L = seq_length`, the positional tensor has
`seq_length + 1` rows and the broadcast addition is a shape error (see the
counterexample below).  What holds is: for every batch of sequence length
`seq_length + 1`, `Encodings.call` returns a tensor of shape
`(batch, seq_length + 1, D)` whose entries are the looked-up token
embeddings scaled by `sqrt D` plus the positional row of the corresponding
sequence position, broadcast across the batch. -/
theorem encodings_call_shape_and_value (e : Encodings) (batch : TokenBatch)
    (hdim : batch.dim1 = e.seq_length + 1) :
    ((Encodings.call e batch).map fun t => (t.dim0, t.dim1, t.dim2)) =
      some (batch.dim0, batch.dim1, e.embedding_dim) ∧
    ∀ i j k, j < batch.dim1 → k < e.embedding_dim →
      ((Encodings.call e batch).map fun t => t.entry i j k) =
        some (e.embedding (batch.entry i j) k * Real.sqrt (e.embedding_dim : ℝ) +
          e.posTensor.entry j k) := by
  refine ⟨encodings_call_dims e batch hdim, fun i j k hj hk => ?_⟩
  rw [encodings_call_entry e batch hdim i j k hj hk]
  rfl

/-- Claim C1, counterexample to the claim as stated: with `seq_length = 2`
and a batch of shape `(1, 2)` (sequences of the configured fixed length,
ids in range), `Encodings.call` does not return a `(1, 2, D)` tensor — the
broadcast of the `(3, D)` positional tensor fails and the call errors. -/
theorem encodings_call_len_seq_fails : Encodings.call c1Enc c1Batch = none := by
  unfold Encodings.call broadcastAdd32
  rw [if_neg]
  intro hcon
  rcases hcon with ⟨h1, _⟩
  rw [Encodings.posTensor_dim0] at h1
  simp only [c1Enc, c1Batch, Encodings.init, Encodings.embedding_scaled,
    Encodings.embedding_out] at h1
  omega

theorem encodings_call_shape_and_value_witness :
    ((Encodings.call c1wEnc c1wBatch).map fun t => (t.dim0, t.dim1, t.dim2)) =
      some (1, 2, 2) ∧
    ((Encodings.call c1wEnc c1wBatch).map fun t => t.entry 0 0 0) =
      some (c1wEnc.embedding (c1wBatch.entry 0 0) 0 *
        Real.sqrt (c1wEnc.embedding_dim : ℝ) + c1wEnc.posTensor.entry 0 0) :=
  ⟨(encodings_call_shape_and_value c1wEnc c1wBatch rfl).1,
   (encodings_call_shape_and_value c1wEnc c1wBatch rfl).2 0 0 0 (by decide) (by decide)⟩

/-- Claim C6: in `Encodings.call`, every looked-up token embedding vector is
multiplied by `sqrt D` before any positional signal is added, for every
input batch and both positional-embedding strategies: the intermediate
tensor is exactly the lookups scaled by `sqrt D`, the call is the broadcast
addition of that scaled tensor with the selected positional tensor, and on
success each output entry is the scaled lookup plus the positional entry. -/
theorem embedding_scaled_before_positional (e : Encodings) (batch : TokenBatch)
    (hdim : batch.dim1 = e.seq_length + 1) :
    (∀ i j k, (e.embedding_scaled batch).entry i j k =
      e.embedding (batch.entry i j) k * Real.sqrt (e.embedding_dim : ℝ)) ∧
    Encodings.call e batch = broadcastAdd32 (e.embedding_scaled batch) e.posTensor ∧
    ∀ i j k, j < batch.dim1 → k < e.embedding_dim →
      ((Encodings.call e batch).map fun t => t.entry i j k) =
        some ((e.embedding_scaled batch).entry i j k + e.posTensor.entry j k) :=
  ⟨fun _ _ _ => rfl, rfl,
   fun i j k hj hk => encodings_call_entry e batch hdim i j k hj hk⟩

theorem embedding_scaled_before_positional_witness :
    (c2Enc.embedding_scaled c2Batch).entry 0 0 0 =
      c2Enc.embedding (c2Batch.entry 0 0) 0 * Real.sqrt (c2Enc.embedding_dim : ℝ) ∧
    ((Encodings.call c2Enc c2Batch).map fun t => t.entry 0 0 0) =
      some ((c2Enc.embedding_scaled c2Batch).entry 0 0 0 +
        c2Enc.posTensor.entry 0 0) :=
  ⟨(embedding_scaled_before_positional c2Enc c2Batch rfl).1 0 0 0,
   (embedding_scaled_before_positional c2Enc c2Batch rfl).2.2 0 0 0
     (by decide) (by decide)⟩

/-- Claim C2, code-bug evidence.  The class docstring says `pos_embedding`
decides "whether to include positional encodings or not", but with
`pos_embedding = False` the `else` branch of `Encodings.call` still adds the
trainable positional table.  At `c2Enc` (zero token table, all-one positional
table, `pos_embedding = False`) the output entry is `1`, whereas the scaled
token embeddings alone are `0`. -/
theorem pos_embedding_false_still_adds :
    ((Encodings.call c2Enc c2Batch).map fun t => t.entry 0 0 0) = some 1 ∧
    (c2Enc.embedding_scaled c2Batch).entry 0 0 0 = 0 ∧
    ((Encodings.call c2Enc c2Batch).map fun t => t.entry 0 0 0) ≠
      some ((c2Enc.embedding_scaled c2Batch).entry 0 0 0) := by
  have h2 : (c2Enc.embedding_scaled c2Batch).entry 0 0 0 = 0 := by
    show (0 : ℝ) * Real.sqrt ((2 : ℕ) : ℝ) = 0
    rw [zero_mul]
  have h1 : ((Encodings.call c2Enc c2Batch).map fun t => t.entry 0 0 0) = some 1 := by
    rw [encodings_call_entry c2Enc c2Batch rfl 0 0 0 (by decide) (by decide), h2]
    have hpos : c2Enc.posTensor.entry 0 0 = 1 := by
      unfold Encodings.posTensor
      rw [if_neg]
      · rfl
      · intro hcon
        exact absurd hcon.1 (by decide)
    rw [hpos, zero_add]
  exact ⟨h1, h2, by rw [h1, h2]; simp⟩

/-- Claim C5: the sinusoidal positional matrix has `seq_len + 1` rows of
width `d`, and for `k ≤ seq_len`, `i < d / 2`, entry `(k, 2i)` equals
`sin (k / 10000 ^ (2i/d))` and entry `(k, 2i+1)` equals
`cos (k / 10000 ^ (2i/d))` (base `n = 10000`); as a pure value it is never
mutated after construction. -/
theorem get_sin_pos_emb_mat_correct (s d k i : ℕ) (hk : k ≤ s) (hi : i < d / 2) :
    (get_sin_pos_emb_mat s d).length = s + 1 ∧
    (∀ row ∈ get_sin_pos_emb_mat s d, row.length = d) ∧
    ∃ row, (get_sin_pos_emb_mat s d)[k]? = some row ∧
      row[2 * i]? =
        some (Real.sin ((k : ℝ) / (10000 : ℝ) ^ (2 * (i : ℝ) / (d : ℝ)))) ∧
      row[2 * i + 1]? =
        some (Real.cos ((k : ℝ) / (10000 : ℝ) ^ (2 * (i : ℝ) / (d : ℝ)))) := by
  have h2i : 2 * i < d := by omega
  have h2i1 : 2 * i + 1 < d := by omega
  refine ⟨by simp [get_sin_pos_emb_mat], ?_, ?_⟩
  · intro row hrow
    simp only [get_sin_pos_emb_mat, List.mem_map] at hrow
    obtain ⟨a, _, rfl⟩ := hrow
    simp
  · refine ⟨(List.range d).map fun j => sinPosEntry d k j, ?_, ?_, ?_⟩
    · rw [get_sin_pos_emb_mat, List.getElem?_map,
        List.getElem?_range (by omega : k < s + 1), Option.map_some']
    · rw [List.getElem?_map, List.getElem?_range h2i, Option.map_some']
      congr 1
      unfold sinPosEntry
      rw [if_pos (by omega : 2 * i < 2 * (d / 2)), if_pos (by omega : 2 * i % 2 = 0)]
      push_cast
      ring_nf
    · rw [List.getElem?_map, List.getElem?_range h2i1, Option.map_some']
      congr 1
      unfold sinPosEntry
      rw [if_pos (by omega : 2 * i + 1 < 2 * (d / 2)),
        if_neg (by omega : ¬ (2 * i + 1) % 2 = 0)]
      rw [show 2 * i + 1 - 1 = 2 * i from rfl]
      push_cast
      ring_nf

theorem get_sin_pos_emb_mat_correct_witness :
    (get_sin_pos_emb_mat 0 2).length = 0 + 1 ∧
    ∃ row, (get_sin_pos_emb_mat 0 2)[0]? = some row ∧
      row[2 * 0]? =
        some (Real.sin (((0 : ℕ) : ℝ) / (10000 : ℝ) ^ (2 * ((0 : ℕ) : ℝ) / ((2 : ℕ) : ℝ)))) ∧
      row[2 * 0 + 1]? =
        some (Real.cos (((0 : ℕ) : ℝ) / (10000 : ℝ) ^ (2 * ((0 : ℕ) : ℝ) / ((2 : ℕ) : ℝ)))) :=
  ⟨(get_sin_pos_emb_mat_correct 0 2 0 0 (le_refl 0) (by decide)).1,
   (get_sin_pos_emb_mat_correct 0 2 0 0 (le_refl 0) (by decide)).2.2⟩

/-- Claim C8: `Attention.__init__` performs no divisibility check — when
`emb_dim` is not a multiple of `num_heads` (and `num_heads > 0`, since the
Python division would otherwise raise), construction succeeds, the head size
is the integer-division quotient, `all_head_size = num_heads * head_size`,
and the remainder is silently dropped (`all_head_size < emb_dim`). -/
theorem attention_init_integer_division (num_heads emb_dim : ℕ) (w : AttWeights)
    (hH : 0 < num_heads) (hnd : ¬ num_heads ∣ emb_dim) :
    (Attention.init num_heads emb_dim w).attention_head_size = emb_dim / num_heads ∧
    (Attention.init num_heads emb_dim w).all_head_size =
      num_heads * (emb_dim / num_heads) ∧
    (Attention.init num_heads emb_dim w).all_head_size < emb_dim := by
  refine ⟨rfl, rfl, ?_⟩
  show num_heads * (emb_dim / num_heads) < emb_dim
  refine lt_of_le_of_ne (Nat.mul_div_le emb_dim num_heads) fun heq =>
    hnd ⟨emb_dim / num_heads, heq.symm⟩

theorem attention_init_integer_division_witness :
    (Attention.init 3 8 zeroAttW).attention_head_size = 8 / 3 ∧
    (Attention.init 3 8 zeroAttW).all_head_size = 3 * (8 / 3) ∧
    (Attention.init 3 8 zeroAttW).all_head_size < 8 :=
  attention_init_integer_division 3 8 zeroAttW (by decide) (by decide)

/-- Claim C9: the forward pass of the model is a pure function of the
parameters and the input — the embedding of `_Model.call` threads no mutable
state, so two calls on identical input yield identical output. -/
theorem model_forward_deterministic (M : Model) (input1 input2 : TokenBatch)
    (h : input1 = input2) : Model.call M input1 = Model.call M input2 := by
  rw [h]

theorem model_forward_deterministic_witness :
    Model.call tinyModel tinyBatch = Model.call tinyModel tinyBatch :=
  model_forward_deterministic tinyModel tinyBatch tinyBatch rfl

/-- Claim C10: for any `agg_method` other than the exact string `"TOKEN"`,
`_Model.call` behaves exactly as with `agg_method = "SUM"` (summation
pooling); no validation is performed and no error is raised. -/
theorem agg_method_fallthrough (M : Model) (input : TokenBatch)
    (h : M.agg_method ≠ "TOKEN") :
    Model.call M input = Model.call { M with agg_method := "SUM" } input := by
  unfold Model.call
  have hf : ∀ op, M.forwardFrom op =
      Model.forwardFrom { M with agg_method := "SUM" } op := by
    intro op
    unfold Model.forwardFrom
    rw [if_neg h, if_neg (fun hcon =>
      absurd hcon (by decide : ¬ ("SUM" : String) = "TOKEN"))]
  simp only [hf]

theorem agg_method_fallthrough_witness :
    Model.call fooModel tinyBatch =
      Model.call { fooModel with agg_method := "SUM" } tinyBatch :=
  agg_method_fallthrough fooModel tinyBatch (by decide)

/-- Claim C7: on a successfully encoded batch (sequence length
`seq_length + 1`), with `num_heads` dividing `emb_dim` and at least one
attention layer, `_Model.call` pools the final attention output by taking
exactly the position-0 vector when `agg_method = "TOKEN"` and the
elementwise sum over positions when `agg_method = "SUM"`, applies the single
final `Dense(head_size)` projection, and returns an output of shape
`(batch, head_size)` together with the per-layer attention tensors stacked
into shape `(num_layers, batch, heads, L, L)`. -/
theorem model_call_shapes_and_pooling
    (emb_dim seq_length vocab_size : ℕ) (pos_embedding : Bool)
    (num_heads head_size : ℕ) (agg_method embedding_type : String)
    (num_att_layers : ℕ) (embW randW : ℕ → ℕ → ℝ) (layerW : ℕ → AttWeights)
    (headK : ℕ → ℕ → ℝ) (headB : ℕ → ℝ) (input : TokenBatch) (M : Model)
    (hM : M = Model.init emb_dim seq_length vocab_size pos_embedding num_heads
      head_size agg_method embedding_type num_att_layers embW randW layerW
      headK headB)
    (hdvd : num_heads ∣ emb_dim) (hD : 0 < emb_dim) (hn : 0 < num_att_layers)
    (hinput : input.dim1 = seq_length + 1) :
    ((Model.call M input).map fun r => (r.1.dim0, r.1.dim1)) =
      some (input.dim0, head_size) ∧
    ((Model.call M input).map fun r => (r.2.dim0, r.2.dim1, r.2.dim2, r.2.dim3, r.2.dim4)) =
      some (num_att_layers, input.dim0, num_heads, input.dim1, input.dim1) ∧
    (agg_method = "TOKEN" →
      ((Model.call M input).map fun r => r.1) =
        ((M.encodings.call input).map fun op =>
          M.head.apply2 (firstPositionPool (Model.runLayers M.att_layers op).1))) ∧
    (agg_method = "SUM" →
      ((Model.call M input).map fun r => r.1) =
        ((M.encodings.call input).map fun op =>
          M.head.apply2 (sumPool (Model.runLayers M.att_layers op).1))) := by
  subst hM
  obtain ⟨op, hop, hop0, hop1, hop2⟩ :=
    encodings_call_eq (Model.init emb_dim seq_length vocab_size pos_embedding
      num_heads head_size agg_method embedding_type num_att_layers embW randW
      layerW headK headB).encodings input hinput
  have hmem : ∀ B ∈ (Model.init emb_dim seq_length vocab_size pos_embedding
      num_heads head_size agg_method embedding_type num_att_layers embW randW
      layerW headK headB).att_layers, ∃ w, B = Attention.init num_heads emb_dim w := by
    intro B hB
    have hB2 : B ∈ (List.range num_att_layers).map fun i =>
      Attention.init num_heads emb_dim (layerW i) := hB
    rw [List.mem_map] at hB2
    obtain ⟨a, _, rfl⟩ := hB2
    exact ⟨layerW a, rfl⟩
  have hrun := runLayers_facts num_heads emb_dim hdvd hD _ hmem op hop2
  have hcall : Model.call (Model.init emb_dim seq_length vocab_size pos_embedding
      num_heads head_size agg_method embedding_type num_att_layers embW randW
      layerW headK headB) input =
      some ((Model.init emb_dim seq_length vocab_size pos_embedding num_heads
        head_size agg_method embedding_type num_att_layers embW randW layerW
        headK headB).forwardFrom op) := by
    unfold Model.call
    rw [hop, Option.map_some']
  have hlayers : (Model.init emb_dim seq_length vocab_size pos_embedding
      num_heads head_size agg_method embedding_type num_att_layers embW randW
      layerW headK headB).att_layers.length = num_att_layers := by
    show ((List.range num_att_layers).map fun i =>
      Attention.init num_heads emb_dim (layerW i)).length = num_att_layers
    rw [List.length_map, List.length_range]
  refine ⟨?_, ?_, ?_, ?_⟩
  · rw [hcall, Option.map_some']
    have hpool0 : ((Model.init emb_dim seq_length vocab_size pos_embedding
        num_heads head_size agg_method embedding_type num_att_layers embW randW
        layerW headK headB).forwardFrom op).1.dim0 = input.dim0 := by
      unfold Model.forwardFrom
      dsimp only
      split <;> exact hrun.1.1.trans hop0
    rw [hpool0]
    rfl
  · rw [hcall, Option.map_some']
    show some ((stack5 (Model.runLayers (Model.init emb_dim seq_length
        vocab_size pos_embedding num_heads head_size agg_method embedding_type
        num_att_layers embW randW layerW headK headB).att_layers op).2).dim0,
      (stack5 (Model.runLayers (Model.init emb_dim seq_length vocab_size
        pos_embedding num_heads head_size agg_method embedding_type
        num_att_layers embW randW layerW headK headB).att_layers op).2).dim1,
      (stack5 (Model.runLayers (Model.init emb_dim seq_length vocab_size
        pos_embedding num_heads head_size agg_method embedding_type
        num_att_layers embW randW layerW headK headB).att_layers op).2).dim2,
      (stack5 (Model.runLayers (Model.init emb_dim seq_length vocab_size
        pos_embedding num_heads head_size agg_method embedding_type
        num_att_layers embW randW layerW headK headB).att_layers op).2).dim3,
      (stack5 (Model.runLayers (Model.init emb_dim seq_length vocab_size
        pos_embedding num_heads head_size agg_method embedding_type
        num_att_layers embW randW layerW headK headB).att_layers op).2).dim4) =
      some (num_att_layers, input.dim0, num_heads, input.dim1, input.dim1)
    rcases hres : (Model.runLayers (Model.init emb_dim seq_length vocab_size
        pos_embedding num_heads head_size agg_method embedding_type
        num_att_layers embW randW layerW headK headB).att_layers op).2 with
      _ | ⟨t, ts⟩
    · exfalso
      have hlen := hrun.2.1
      rw [hres] at hlen
      simp only [List.length_nil] at hlen
      omega
    · have htmem : t ∈ (Model.runLayers (Model.init emb_dim seq_length
          vocab_size pos_embedding num_heads head_size agg_method embedding_type
          num_att_layers embW randW layerW headK headB).att_layers op).2 := by
        rw [hres]; exact List.mem_cons_self t ts
      obtain ⟨ht0, ht1, ht2, ht3⟩ := hrun.2.2 t htmem
      have hlen : (t :: ts).length = num_att_layers := by
        rw [← hres, hrun.2.1, hlayers]
      unfold stack5
      dsimp only
      rw [List.headD_cons, hlen, ht0.trans hop0, ht1, ht2.trans hop1, ht3.trans hop1]
  · intro hagg
    rw [hcall, Option.map_some', hop, Option.map_some']
    have hagg2 : (Model.init emb_dim seq_length vocab_size pos_embedding
        num_heads head_size agg_method embedding_type num_att_layers embW randW
        layerW headK headB).agg_method = "TOKEN" := hagg
    unfold Model.forwardFrom
    dsimp only
    rw [if_pos hagg2]
    rfl
  · intro hagg
    rw [hcall, Option.map_some', hop, Option.map_some']
    have hne : ¬ (Model.init emb_dim seq_length vocab_size pos_embedding
        num_heads head_size agg_method embedding_type num_att_layers embW randW
        layerW headK headB).agg_method = "TOKEN" := by
      intro hcon
      have hcon2 : agg_method = "TOKEN" := hcon
      rw [hagg] at hcon2
      exact absurd hcon2 (by decide)
    unfold Model.forwardFrom
    dsimp only
    rw [if_neg hne]
    rfl

theorem model_call_shapes_and_pooling_witness :
    ((Model.call tinyModel tinyBatch).map fun r => (r.1.dim0, r.1.dim1)) =
      some (tinyBatch.dim0, 1) ∧
    ((Model.call tinyModel tinyBatch).map fun r => r.1) =
      ((tinyModel.encodings.call tinyBatch).map fun op =>
        tinyModel.head.apply2
          (firstPositionPool (Model.runLayers tinyModel.att_layers op).1)) :=
  ⟨(model_call_shapes_and_pooling 1 0 0 true 1 1 ("TOKEN") ("SIN_COS") 1
      (fun _ _ => 0) (fun _ _ => 0) (fun _ => zeroAttW) (fun _ _ => 0)
      (fun _ => 0) tinyBatch tinyModel rfl (by decide) (by decide) (by decide)
      rfl).1,
   (model_call_shapes_and_pooling 1 0 0 true 1 1 ("TOKEN") ("SIN_COS") 1
      (fun _ _ => 0) (fun _ _ => 0) (fun _ => zeroAttW) (fun _ _ => 0)
      (fun _ => 0) tinyBatch tinyModel rfl (by decide) (by decide) (by decide)
      rfl).2.2.1 rfl⟩

/-- Claim C3: for every input and every head and query position, the
attention-probability row returned by `Attention.call` is elementwise
non-negative and sums to 1 over the key axis (which must be non-empty for
the row to exist). -/
theorem attention_probs_rows_sum_one (A : Attention) (x : Tensor3)
    (hL : 0 < ((Attention.call A x).2).dim3) :
    (∀ i h q k, 0 ≤ ((Attention.call A x).2).entry i h q k) ∧
    (∀ i h q, ∑ k in Finset.range ((Attention.call A x).2).dim3,
      ((Attention.call A x).2).entry i h q k = 1) := by
  have hP : (Attention.call A x).2 = softmax4 (A.attention_scores x) := rfl
  rw [hP]
  set s := A.attention_scores x with hs
  constructor
  · intro i h q k
    show 0 ≤ Real.exp (s.entry i h q k) /
      ∑ j in Finset.range s.dim3, Real.exp (s.entry i h q j)
    exact div_nonneg (Real.exp_nonneg _)
      (Finset.sum_nonneg fun j _ => Real.exp_nonneg _)
  · intro i h q
    have hL3 : s.dim3 ≠ 0 := by
      have h0 : 0 < s.dim3 := hL
      omega
    have hT : (0 : ℝ) < ∑ j in Finset.range s.dim3, Real.exp (s.entry i h q j) :=
      Finset.sum_pos (fun j _ => Real.exp_pos _) (Finset.nonempty_range_iff.mpr hL3)
    show ∑ k in Finset.range s.dim3, Real.exp (s.entry i h q k) /
      ∑ j in Finset.range s.dim3, Real.exp (s.entry i h q j) = 1
    rw [← Finset.sum_div, div_self (ne_of_gt hT)]

/-- Claim C4: for every input of shape `(batch, L, D)` with `num_heads`
dividing `D`, `Attention.call` computes exactly the claimed pipeline — raw
scores `query · keyᵀ` per head divided by `sqrt head_size`, softmax over the
key axis, probability-weighted sum of values, heads recombined to width
`heads * head_size`, and a final linear output projection back to width `D`
with no non-linear activation: the output and the attention probabilities
agree with the specification-side definitions entrywise, with the expected
shapes. -/
theorem attention_call_matches_spec (H D : ℕ) (w : AttWeights) (x : Tensor3)
    (hH : 0 < H) (hdvd : H ∣ D) (hD : 0 < D) (hx : x.dim2 = D) :
    ((Attention.call (Attention.init H D w) x).1.dim0 = x.dim0 ∧
     (Attention.call (Attention.init H D w) x).1.dim1 = x.dim1 ∧
     (Attention.call (Attention.init H D w) x).1.dim2 = D) ∧
    (∀ i j u, (Attention.call (Attention.init H D w) x).1.entry i j u =
      (specAttentionOutput (Attention.init H D w) x).entry i j u) ∧
    ((Attention.call (Attention.init H D w) x).2.dim0 = x.dim0 ∧
     (Attention.call (Attention.init H D w) x).2.dim1 = H ∧
     (Attention.call (Attention.init H D w) x).2.dim2 = x.dim1 ∧
     (Attention.call (Attention.init H D w) x).2.dim3 = x.dim1) ∧
    (∀ i q k h, h < H →
      (Attention.call (Attention.init H D w) x).2.entry i h q k =
        (specAttentionProbs (Attention.init H D w) x).entry i h q k) := by
  have hall : H * (D / H) = D := Nat.mul_div_cancel' hdvd
  have hallpos : 0 < H * (D / H) := by rw [hall]; exact hD
  have hq2 : ((Attention.init H D w).query_layer x).dim2 = x.dim1 :=
    split_heads_dim2 _ _ rfl hallpos
  have hk2 : ((Attention.init H D w).key_layer x).dim2 = x.dim1 :=
    split_heads_dim2 _ _ rfl hallpos
  refine ⟨⟨rfl, ?_, rfl⟩, ?_, ⟨rfl, rfl, hq2, hk2⟩, ?_⟩
  · show ((Attention.init H D w).query_layer x).dim2 *
        (Attention.init H D w).num_att_heads *
        (Attention.init H D w).attention_head_size /
        (Attention.init H D w).emb_dim = x.dim1
    rw [hq2]
    show x.dim1 * H * (D / H) / D = x.dim1
    rw [mul_assoc, hall, Nat.mul_div_cancel _ hD]
  · intro i j u
    show (∑ c in Finset.range ((Attention.init H D w).context_layer x).dim2,
        ((Attention.init H D w).context_layer x).entry i j c *
          (Attention.init H D w).out.kernel c u) +
        (Attention.init H D w).out.bias u =
      (∑ c in Finset.range (specRecombine
          (specContext (specAttentionProbs (Attention.init H D w) x)
            (headSlice ((Attention.init H D w).value.apply3 x)
              (Attention.init H D w).num_att_heads
              (Attention.init H D w).attention_head_size) x.dim1)
          (Attention.init H D w).num_att_heads
          (Attention.init H D w).attention_head_size).dim2,
        (specRecombine
          (specContext (specAttentionProbs (Attention.init H D w) x)
            (headSlice ((Attention.init H D w).value.apply3 x)
              (Attention.init H D w).num_att_heads
              (Attention.init H D w).attention_head_size) x.dim1)
          (Attention.init H D w).num_att_heads
          (Attention.init H D w).attention_head_size).entry i j c *
          (Attention.init H D w).out.kernel c u) +
        (Attention.init H D w).out.bias u
    congr 1
    have hctx2 : ((Attention.init H D w).context_layer x).dim2 = D := rfl
    have hrec2 : (specRecombine
        (specContext (specAttentionProbs (Attention.init H D w) x)
          (headSlice ((Attention.init H D w).value.apply3 x)
            (Attention.init H D w).num_att_heads
            (Attention.init H D w).attention_head_size) x.dim1)
        (Attention.init H D w).num_att_heads
        (Attention.init H D w).attention_head_size).dim2 = D := hall
    rw [hctx2, hrec2]
    refine Finset.sum_congr rfl fun c hcmem => ?_
    rw [context_layer_entry_spec H D w x hH hdvd hD i j c (Finset.mem_range.mp hcmem)]
  · intro i q k h hh
    exact attention_probs_entry_spec H D w x hH hdvd hD i q k h hh

theorem attention_call_matches_spec_witness :
    (Attention.call c3Attn c3X).1.dim1 = c3X.dim1 ∧
    (Attention.call c3Attn c3X).1.entry 0 0 0 =
      (specAttentionOutput c3Attn c3X).entry 0 0 0 ∧
    (Attention.call c3Attn c3X).2.entry 0 0 0 0 =
      (specAttentionProbs c3Attn c3X).entry 0 0 0 0 :=
  ⟨(attention_call_matches_spec 1 1 zeroAttW c3X (by decide) (by decide)
      (by decide) (by decide)).1.2.1,
   (attention_call_matches_spec 1 1 zeroAttW c3X (by decide) (by decide)
      (by decide) (by decide)).2.1 0 0 0,
   (attention_call_matches_spec 1 1 zeroAttW c3X (by decide) (by decide)
      (by decide) (by decide)).2.2.2 0 0 0 0 (by decide)⟩

theorem attention_probs_rows_sum_one_witness :
    0 ≤ ((Attention.call c3Attn c3X).2).entry 0 0 0 0 ∧
    ∑ k in Finset.range ((Attention.call c3Attn c3X).2).dim3,
      ((Attention.call c3Attn c3X).2).entry 0 0 0 k = 1 :=
  ⟨(attention_probs_rows_sum_one c3Attn c3X (by decide)).1 0 0 0 0,
   (attention_probs_rows_sum_one c3Attn c3X (by decide)).2 0 0 0⟩

end Transformer
